import Mathlib

/-!
Shallow embedding of the scheduling / resource-arbitration core of pa2.c
(FCFS / SRTF / Round-Robin / Priority / Priority-Inheritance variants).

Processes live in an arena indexed by `Pid`; the ready queue and each
resource wait queue are lists of pids, mirroring the intrusive linked
lists of the C code.  The C globals (`current`, `readyqueue`,
`resources[]`) become fields of an explicit `State`; `acquire`/`release`
take the pid of the current process as an argument (the C driver
guarantees `current` is non-NULL there).  C `assert` failures are
modelled by returning `none`.
-/

namespace PA2

abbrev Pid := Nat

/-- Unsigned 32-bit modulus, for the C `unsigned int` arithmetic. -/
def U32 : Nat := 4294967296

/-- `a - b` on `unsigned int` values (wrap-around subtraction mod 2^32). -/
def u32sub (a b : Nat) : Nat := (a % U32 + U32 - b % U32) % U32

/-- Process status, from process.h as used by pa2.c
(PROCESS_READY / PROCESS_RUNNING / PROCESS_WAIT / PROCESS_EXIT). -/
inductive Status where
  | READY
  | RUNNING
  | WAIT
  | EXIT
deriving DecidableEq, Repr

/-- One process of the simulation: id, timing, priority state and the
per-process list `__resources_to_acquire` of resource requests still to
be issued (pa2.c's pip_release iterates it). -/
structure Process where
  pid : Pid
  status : Status
  age : Nat
  lifespan : Nat
  prio : Nat
  prio_orig : Nat
  resourcesToAcquire : List Nat
deriving DecidableEq, Repr

/-- A resource: optional owner plus FIFO wait queue (resource.h). -/
structure Resource where
  owner : Option Pid
  waitqueue : List Pid
deriving DecidableEq, Repr

/-- The mutable globals of pa2.c: the process arena, the `current`
pointer, the ready queue, and the resource table (indexed by id). -/
structure State where
  procs : Pid → Process
  current : Option Pid
  readyqueue : List Pid
  resources : Nat → Resource

/-- Point update of the process arena. -/
def updProc (procs : Pid → Process) (i : Pid) (p : Process) : Pid → Process :=
  fun j => if j = i then p else procs j

/-- Point update of the resource table. -/
def updRes (res : Nat → Resource) (i : Nat) (r : Resource) : Nat → Resource :=
  fun j => if j = i then r else res j

/-- Remaining lifetime `lifespan - age`, computed in `unsigned int`
arithmetic as in srtf_schedule. -/
def remaining (p : Process) : Nat := u32sub p.lifespan p.age

/-- The C maximum-scan `for each x: if (max < f(x)) max = f(x)` starting
from `init` (pa2.c uses it over wait/ready queues for prio / prio_orig). -/
def loopMax (procs : Pid → Process) (f : Process → Nat) (q : List Pid) (init : Nat) : Nat :=
  q.foldl (fun m x => if m < f (procs x) then f (procs x) else m) init

/-- The C minimum-scan `for each x: if (min > f(x)) min = f(x)` starting
from `init` (srtf_schedule and sjf_schedule). -/
def loopMin (procs : Pid → Process) (f : Process → Nat) (q : List Pid) (init : Nat) : Nat :=
  q.foldl (fun m x => if f (procs x) < m then f (procs x) else m) init

/-! ## FCFS acquire / release (pa2.c lines 65-137) -/

/-- fcfs_acquire: if the resource is free the current process takes it
and `true` is returned; otherwise current becomes WAIT, is appended to
the tail of the resource's wait queue, and `false` is returned. -/
def fcfs_acquire (st : State) (cur : Pid) (rid : Nat) : Bool × State :=
  let r := st.resources rid
  match r.owner with
  | none =>
      (true, { st with resources := updRes st.resources rid { r with owner := some cur } })
  | some _ =>
      let st1 := { st with procs := updProc st.procs cur { st.procs cur with status := Status.WAIT } }
      (false, { st1 with resources := updRes st1.resources rid { r with waitqueue := r.waitqueue ++ [cur] } })

/-- fcfs_release: asserts the current process owns the resource, clears
ownership, and if the wait queue is non-empty pops its head, asserts it
is WAIT, makes it READY and appends it to the ready queue tail.
`none` models a failed `assert`. -/
def fcfs_release (st : State) (cur : Pid) (rid : Nat) : Option State :=
  let r := st.resources rid
  if r.owner ≠ some cur then none
  else
    let st1 := { st with resources := updRes st.resources rid { r with owner := none } }
    match r.waitqueue with
    | [] => some st1
    | w :: ws =>
        if (st1.procs w).status ≠ Status.WAIT then none
        else
          some { st1 with
            procs := updProc st1.procs w { st1.procs w with status := Status.READY },
            readyqueue := st1.readyqueue ++ [w],
            resources := updRes st1.resources rid { owner := none, waitqueue := ws } }

/-! ## Priority acquire / release (pa2.c lines 374-417) -/

/-- prio_acquire (pa2.c lines 374-384): identical text to fcfs_acquire;
no priority handling on the acquire side. -/
def prio_acquire (st : State) (cur : Pid) (rid : Nat) : Bool × State :=
  let r := st.resources rid
  match r.owner with
  | none =>
      (true, { st with resources := updRes st.resources rid { r with owner := some cur } })
  | some _ =>
      let st1 := { st with procs := updProc st.procs cur { st.procs cur with status := Status.WAIT } }
      (false, { st1 with resources := updRes st1.resources rid { r with waitqueue := r.waitqueue ++ [cur] } })

/-- prio_release (pa2.c lines 386-417): asserts ownership, clears the
owner, then scans the wait queue for the first waiter of maximal
`prio_orig` — but the scan's result is discarded: a fresh declaration
`struct process *p = list_first_entry(...)` (line 407) shadows the loop
variable, so the waiter actually woken is the queue head.  The dead scan
is kept here as the unused binding `_scanned`. -/
def prio_release (st : State) (cur : Pid) (rid : Nat) : Option State :=
  let r := st.resources rid
  if r.owner ≠ some cur then none
  else
    let st1 := { st with resources := updRes st.resources rid { r with owner := none } }
    match r.waitqueue with
    | [] => some st1
    | w :: ws =>
        let m := loopMax st1.procs (fun p => p.prio_orig) (w :: ws) ((st1.procs w).prio_orig)
        let _scanned := List.find? (fun x => (st1.procs x).prio_orig == m) (w :: ws)
        let p := w
        if (st1.procs p).status ≠ Status.WAIT then none
        else
          some { st1 with
            procs := updProc st1.procs p { st1.procs p with status := Status.READY },
            readyqueue := st1.readyqueue ++ [p],
            resources := updRes st1.resources rid { owner := none, waitqueue := ws } }

/-! ## Priority-inheritance acquire / release (pa2.c lines 478-536) -/

/-- pip_acquire: if free, take the resource.  Otherwise current becomes
WAIT; if the owner's current prio is below the requester's, the owner's
prio is boosted to the requester's; current is appended to the wait
queue tail and `false` is returned. -/
def pip_acquire (st : State) (cur : Pid) (rid : Nat) : Bool × State :=
  let r := st.resources rid
  match r.owner with
  | none =>
      (true, { st with resources := updRes st.resources rid { r with owner := some cur } })
  | some o =>
      let st1 := { st with procs := updProc st.procs cur { st.procs cur with status := Status.WAIT } }
      let st2 :=
        if (st1.procs o).prio < (st1.procs cur).prio then
          { st1 with procs := updProc st1.procs o { st1.procs o with prio := (st1.procs cur).prio } }
        else st1
      (false, { st2 with resources := updRes st2.resources rid { r with waitqueue := r.waitqueue ++ [cur] } })

/-- pip_release: asserts ownership, restores the releasing owner's prio
to prio_orig, clears the owner, then selects the first waiter of maximal
current prio, asserts it is WAIT and removes it from the wait queue.
The wake-up guard counts `p->__resources_to_acquire` twice into `acn`
and `hon` and wakes `p` when `acn == hon` — the two counts traverse the
same list, so the guard is always true. -/
def pip_release (st : State) (cur : Pid) (rid : Nat) : Option State :=
  let r := st.resources rid
  if r.owner ≠ some cur then none
  else
    let st1 := { st with procs := updProc st.procs cur { st.procs cur with prio := (st.procs cur).prio_orig } }
    let st2 := { st1 with resources := updRes st1.resources rid { r with owner := none } }
    match r.waitqueue with
    | [] => some st2
    | w :: ws =>
        let m := loopMax st2.procs (fun p => p.prio) (w :: ws) ((st2.procs w).prio)
        match List.find? (fun x => (st2.procs x).prio == m) (w :: ws) with
        | none => none
        | some p =>
            if (st2.procs p).status ≠ Status.WAIT then none
            else
              let r2 := st2.resources rid
              let st3 := { st2 with resources := updRes st2.resources rid { r2 with waitqueue := r2.waitqueue.erase p } }
              let acn := (st3.procs p).resourcesToAcquire.length
              let hon := (st3.procs p).resourcesToAcquire.length
              if acn = hon then
                some { st3 with
                  procs := updProc st3.procs p { st3.procs p with status := Status.READY },
                  readyqueue := st3.readyqueue ++ [p] }
              else some st3

/-! ## SRTF scheduler (pa2.c lines 251-281) -/

/-- The `pick_next` tail of srtf_schedule: the selected minimum-remaining
process (found by the scan before the label) is unlinked from the ready
queue; with no selection (`NULL`, or a scan that found no match, which in
the C would dereference garbage) nothing is picked. -/
def srtf_pick (sel : Option Pid) (st : State) : Option Pid × State :=
  match sel with
  | none => (none, st)
  | some n => (some n, { st with readyqueue := st.readyqueue.erase n })

/-- srtf_schedule: scans the ready queue for the minimum remaining time
(`unsigned min = 100000` sentinel) and remembers the first process
attaining it; a running, unfinished current process is requeued at the
tail exactly when its remaining time strictly exceeds that minimum,
otherwise it keeps running. -/
def srtf_schedule (st : State) : Option Pid × State :=
  let m := loopMin st.procs remaining st.readyqueue 100000
  let sel := List.find? (fun x => remaining (st.procs x) == m) st.readyqueue
  match st.current with
  | none => srtf_pick sel st
  | some c =>
      if (st.procs c).status = Status.WAIT then srtf_pick sel st
      else if (st.procs c).age < (st.procs c).lifespan then
        if m < remaining (st.procs c) then
          srtf_pick sel { st with readyqueue := st.readyqueue ++ [c] }
        else (some c, st)
      else srtf_pick sel st

/-! ## Round-Robin scheduler (pa2.c lines 296-315) -/

/-- The `pick_next` tail shared by rr_schedule: dequeue the ready-queue
head, if any. -/
def rr_pick (st : State) : Option Pid × State :=
  match st.readyqueue with
  | [] => (none, st)
  | n :: rest => (some n, { st with readyqueue := rest })

/-- rr_schedule: with no current / a waiting current / a finished
current, dispatch the ready-queue head; an unfinished current keeps
running only when the ready queue is empty, and is otherwise requeued at
the tail before the head is dispatched (quantum of one tick). -/
def rr_schedule (st : State) : Option Pid × State :=
  match st.current with
  | none => rr_pick st
  | some c =>
      if (st.procs c).status = Status.WAIT ∨ (st.procs c).age = (st.procs c).lifespan then
        rr_pick st
      else if (st.procs c).age < (st.procs c).lifespan ∧ st.readyqueue = [] then
        (some c, st)
      else if st.readyqueue ≠ [] then
        rr_pick { st with readyqueue := st.readyqueue ++ [c] }
      else rr_pick st

/-! ## Priority and Priority-Inheritance schedulers (pa2.c lines 326-372
and 429-476).  The two functions are textually identical except that the
Priority variant compares `prio_orig` while the PIP variant compares the
current `prio`; the shared text is factored into `prio_like_schedule`
parameterised by the compared field. -/

/-- The `pick_next` tail of prio_schedule / pip_schedule: starting from
the head's priority, scan for the maximum, then unlink the first process
attaining it. -/
def prio_like_pick (f : Process → Nat) (st : State) : Option Pid × State :=
  match st.readyqueue with
  | [] => (none, st)
  | w :: ws =>
      let m := loopMax st.procs f (w :: ws) (f (st.procs w))
      match List.find? (fun x => f (st.procs x) == m) (w :: ws) with
      | some sel => (some sel, { st with readyqueue := (w :: ws).erase sel })
      | none => (none, st)

/-- Common body of prio_schedule and pip_schedule: with no current / a
waiting current / a finished current, fall to `pick_next`; an unfinished
current with an empty ready queue keeps running; otherwise the maximum
priority over current and the ready queue is computed, and if some ready
process attains it (`check == 1`) current is requeued at the tail and the
first such process is dispatched, else current keeps running. -/
def prio_like_schedule (f : Process → Nat) (st : State) : Option Pid × State :=
  match st.current with
  | none => prio_like_pick f st
  | some c =>
      if (st.procs c).status = Status.WAIT ∨ (st.procs c).age = (st.procs c).lifespan then
        prio_like_pick f st
      else if (st.procs c).age < (st.procs c).lifespan ∧ st.readyqueue = [] then
        (some c, st)
      else
        match st.readyqueue with
        | [] => (none, st)
        | w :: ws =>
            let m := loopMax st.procs f (w :: ws) (f (st.procs c))
            match List.find? (fun x => f (st.procs x) == m) (w :: ws) with
            | some sel => (some sel, { st with readyqueue := ((w :: ws) ++ [c]).erase sel })
            | none => (some c, st)

/-- prio_schedule (pa2.c lines 326-372): compares `prio_orig`. -/
def prio_schedule (st : State) : Option Pid × State :=
  prio_like_schedule (fun p => p.prio_orig) st

/-- pip_schedule (pa2.c lines 429-476): compares the current, possibly
boosted, `prio`. -/
def pip_schedule (st : State) : Option Pid × State :=
  prio_like_schedule (fun p => p.prio) st

/-- Modelled from the spec: the external tick driver (main loop, not in
pa2.c) calls the policy's `schedule()` once per tick, makes the returned
process current and advances its age by one.  Instantiated here with
rr_schedule for the Round-Robin trace. -/
def rr_tick (st : State) : Option Pid × State :=
  match rr_schedule st with
  | (none, st1) => (none, { st1 with current := none })
  | (some n, st1) =>
      (some n, { st1 with
        current := some n,
        procs := updProc st1.procs n { st1.procs n with age := (st1.procs n).age + 1 } })

/-- Iterate `rr_tick` for a number of ticks, collecting the dispatched
process of each tick. -/
def rr_run (st : State) : Nat → List (Option Pid) × State
  | 0 => ([], st)
  | n + 1 =>
      let (d, st1) := rr_tick st
      let (ds, st2) := rr_run st1 n
      (d :: ds, st2)

/-! ## Queue-membership invariant -/

/-- Every collection holds a process at most once and the collections are
pairwise disjoint: the ready queue and each wait queue are duplicate-free,
no process is simultaneously on the ready queue and a wait queue, and no
process is on two distinct wait queues. -/
def QueuesDisjoint (st : State) : Prop :=
  st.readyqueue.Nodup
  ∧ (∀ i, ((st.resources i).waitqueue).Nodup)
  ∧ (∀ i x, x ∈ (st.resources i).waitqueue → x ∉ st.readyqueue)
  ∧ (∀ i j, i ≠ j → ∀ x, x ∈ (st.resources i).waitqueue → x ∉ (st.resources j).waitqueue)

/-- A process linked into no collection at all (the running process). -/
def Unqueued (st : State) (p : Pid) : Prop :=
  p ∉ st.readyqueue ∧ ∀ i, p ∉ (st.resources i).waitqueue

/-! ## Concrete example states -/

/-- Build a process record from its fields. -/
def mkP (id : Pid) (s : Status) (a l pr po : Nat) (rta : List Nat) : Process :=
  ⟨id, s, a, l, pr, po, rta⟩

/-- Filler process for arena slots the examples never touch. -/
def defP : Process := mkP 99 Status.READY 0 1 0 0 []

/-- Process 0 owns resource 0; waiter 1 is WAIT with two outstanding
resource acquisitions still pending ([2, 3]). -/
def stC1 : State :=
  { procs := fun q => if q = 0 then mkP 0 Status.RUNNING 0 5 3 1 []
             else if q = 1 then mkP 1 Status.WAIT 0 5 5 5 [2, 3] else defP,
    current := some 0,
    readyqueue := [],
    resources := fun i => if i = 0 then ⟨some 0, [1]⟩ else ⟨none, []⟩ }

/-- Process 0 owns resource 0; the wait queue holds 1 (prio_orig 1) then
2 (prio_orig 5), so the maximal-priority waiter is 2, not the head. -/
def stC2 : State :=
  { procs := fun q => if q = 0 then mkP 0 Status.RUNNING 0 5 1 1 []
             else if q = 1 then mkP 1 Status.WAIT 0 5 1 1 []
             else if q = 2 then mkP 2 Status.WAIT 0 5 5 5 [] else defP,
    current := some 0,
    readyqueue := [],
    resources := fun i => if i = 0 then ⟨some 0, [1, 2]⟩ else ⟨none, []⟩ }

/-- Running process 1 and ready process 2 share priority 5: a tie. -/
def stC3 : State :=
  { procs := fun q => if q = 1 then mkP 1 Status.RUNNING 1 5 5 5 []
             else if q = 2 then mkP 2 Status.READY 0 5 5 5 [] else defP,
    current := some 1,
    readyqueue := [2],
    resources := fun _ => ⟨none, []⟩ }

/-- Running process 1 (prio 3) with ready process 2 (prio 5). -/
def stC3w : State :=
  { procs := fun q => if q = 1 then mkP 1 Status.RUNNING 0 5 3 3 []
             else if q = 2 then mkP 2 Status.READY 0 5 5 5 [] else defP,
    current := some 1,
    readyqueue := [2],
    resources := fun _ => ⟨none, []⟩ }

/-- Process 2 (prio 1) owns resource 0; process 1 (prio 5) requests it. -/
def stC4w : State :=
  { procs := fun q => if q = 1 then mkP 1 Status.RUNNING 0 5 5 5 []
             else if q = 2 then mkP 2 Status.READY 0 5 1 1 [] else defP,
    current := some 1,
    readyqueue := [],
    resources := fun i => if i = 0 then ⟨some 2, []⟩ else ⟨none, []⟩ }

/-- Running process 1 (remaining 5) with ready process 2 (remaining 2). -/
def stC5w : State :=
  { procs := fun q => if q = 1 then mkP 1 Status.RUNNING 0 5 0 0 []
             else if q = 2 then mkP 2 Status.READY 0 2 0 0 [] else defP,
    current := some 1,
    readyqueue := [2],
    resources := fun _ => ⟨none, []⟩ }

/-- Running process 0 owns resource 0 whose wait queue holds 2;
process 1 is on the ready queue. -/
def stC6w : State :=
  { procs := fun q => if q = 0 then mkP 0 Status.RUNNING 0 5 1 1 []
             else if q = 1 then mkP 1 Status.READY 0 5 1 1 []
             else if q = 2 then mkP 2 Status.WAIT 0 5 1 1 [] else defP,
    current := some 0,
    readyqueue := [1],
    resources := fun i => if i = 0 then ⟨some 0, [2]⟩ else ⟨none, []⟩ }

/-- Round-Robin start state: no current process, ready queue
[1 (lifespan 3), 2 (lifespan 2)] — tick 1 dispatches process 1, which is
the sense in which process 1 "is running" at the start of the trace. -/
def stC7 : State :=
  { procs := fun q => if q = 1 then mkP 1 Status.READY 0 3 0 0 []
             else if q = 2 then mkP 2 Status.READY 0 2 0 0 [] else defP,
    current := none,
    readyqueue := [1, 2],
    resources := fun _ => ⟨none, []⟩ }

/-- Round-Robin mid-trace state: process 1 running (unfinished), ready
queue [2]. -/
def stC7w : State :=
  { procs := fun q => if q = 1 then mkP 1 Status.RUNNING 0 3 0 0 []
             else if q = 2 then mkP 2 Status.READY 0 2 0 0 [] else defP,
    current := some 1,
    readyqueue := [2],
    resources := fun _ => ⟨none, []⟩ }

/-- Process 0 owns resource 0; waiter 1 is WAIT on its wait queue. -/
def stC8w : State :=
  { procs := fun q => if q = 0 then mkP 0 Status.RUNNING 0 5 1 1 []
             else if q = 1 then mkP 1 Status.WAIT 0 5 1 1 [] else defP,
    current := some 0,
    readyqueue := [],
    resources := fun i => if i = 0 then ⟨some 0, [1]⟩ else ⟨none, []⟩ }

/-- Arena where every slot holds the same process with prio 3 boosted
above prio_orig 1; resource 0 is owned by 0. -/
def stC9w : State :=
  { procs := fun _ => mkP 0 Status.RUNNING 0 5 3 1 [],
    current := some 0,
    readyqueue := [],
    resources := fun i => if i = 0 then ⟨some 0, []⟩ else ⟨none, []⟩ }

/-! ## Helper lemmas about the C scan loops -/

theorem updProc_apply (procs : Pid → Process) (i : Pid) (p : Process) (j : Pid) :
    updProc procs i p j = if j = i then p else procs j := rfl

theorem updRes_apply (res : Nat → Resource) (i : Nat) (r : Resource) (j : Nat) :
    updRes res i r j = if j = i then r else res j := rfl

theorem updRes_updRes (res : Nat → Resource) (i : Nat) (r1 r2 : Resource) :
    updRes (updRes res i r1) i r2 = updRes res i r2 := by
  funext j
  simp only [updRes]
  split <;> rfl

theorem updProc_updProc (procs : Pid → Process) (i : Pid) (p1 p2 : Process) :
    updProc (updProc procs i p1) i p2 = updProc procs i p2 := by
  funext j
  simp only [updProc]
  split <;> rfl

theorem loopMax_cons (procs : Pid → Process) (f : Process → Nat) (x : Pid) (xs : List Pid)
    (init : Nat) :
    loopMax procs f (x :: xs) init
      = loopMax procs f xs (if init < f (procs x) then f (procs x) else init) := rfl

theorem loopMax_init_le (procs : Pid → Process) (f : Process → Nat) (q : List Pid) :
    ∀ init, init ≤ loopMax procs f q init := by
  induction q with
  | nil => intro init; exact Nat.le_refl _
  | cons x xs ih =>
      intro init
      rw [loopMax_cons]
      refine Nat.le_trans ?_ (ih _)
      split <;> omega

theorem le_loopMax (procs : Pid → Process) (f : Process → Nat) (q : List Pid) :
    ∀ init x, x ∈ q → f (procs x) ≤ loopMax procs f q init := by
  induction q with
  | nil => intro init x hx; cases hx
  | cons y ys ih =>
      intro init x hx
      rw [loopMax_cons]
      rcases List.mem_cons.mp hx with h | h
      · subst h
        refine Nat.le_trans ?_ (loopMax_init_le procs f ys _)
        split <;> omega
      · exact ih _ x h

theorem loopMax_eq_init_or_mem (procs : Pid → Process) (f : Process → Nat) (q : List Pid) :
    ∀ init, loopMax procs f q init = init
      ∨ ∃ x, x ∈ q ∧ loopMax procs f q init = f (procs x) := by
  induction q with
  | nil => intro init; exact Or.inl rfl
  | cons y ys ih =>
      intro init
      rw [loopMax_cons]
      rcases ih (if init < f (procs y) then f (procs y) else init) with h | ⟨x, hx, he⟩
      · by_cases hlt : init < f (procs y)
        · exact Or.inr ⟨y, List.mem_cons_self y ys, by rw [h]; simp [hlt]⟩
        · exact Or.inl (by rw [h]; simp [hlt])
      · exact Or.inr ⟨x, List.mem_cons_of_mem y hx, he⟩

theorem loopMax_achieved (procs : Pid → Process) (f : Process → Nat) (q : List Pid) (init : Nat)
    (h : ∃ x, x ∈ q ∧ init ≤ f (procs x)) :
    ∃ x, x ∈ q ∧ f (procs x) = loopMax procs f q init := by
  rcases loopMax_eq_init_or_mem procs f q init with he | ⟨x, hx, hev⟩
  · rcases h with ⟨x, hx, hle⟩
    refine ⟨x, hx, Nat.le_antisymm (le_loopMax procs f q init x hx) ?_⟩
    rw [he]; exact hle
  · exact ⟨x, hx, hev.symm⟩

theorem loopMin_cons (procs : Pid → Process) (f : Process → Nat) (x : Pid) (xs : List Pid)
    (init : Nat) :
    loopMin procs f (x :: xs) init
      = loopMin procs f xs (if f (procs x) < init then f (procs x) else init) := rfl

theorem loopMin_le_init (procs : Pid → Process) (f : Process → Nat) (q : List Pid) :
    ∀ init, loopMin procs f q init ≤ init := by
  induction q with
  | nil => intro init; exact Nat.le_refl _
  | cons x xs ih =>
      intro init
      rw [loopMin_cons]
      refine Nat.le_trans (ih _) ?_
      split <;> omega

theorem loopMin_le (procs : Pid → Process) (f : Process → Nat) (q : List Pid) :
    ∀ init x, x ∈ q → loopMin procs f q init ≤ f (procs x) := by
  induction q with
  | nil => intro init x hx; cases hx
  | cons y ys ih =>
      intro init x hx
      rw [loopMin_cons]
      rcases List.mem_cons.mp hx with h | h
      · subst h
        refine Nat.le_trans (loopMin_le_init procs f ys _) ?_
        split <;> omega
      · exact ih _ x h

theorem loopMin_eq_init_or_mem (procs : Pid → Process) (f : Process → Nat) (q : List Pid) :
    ∀ init, loopMin procs f q init = init
      ∨ ∃ x, x ∈ q ∧ loopMin procs f q init = f (procs x) := by
  induction q with
  | nil => intro init; exact Or.inl rfl
  | cons y ys ih =>
      intro init
      rw [loopMin_cons]
      rcases ih (if f (procs y) < init then f (procs y) else init) with h | ⟨x, hx, he⟩
      · by_cases hlt : f (procs y) < init
        · exact Or.inr ⟨y, List.mem_cons_self y ys, by rw [h]; simp [hlt]⟩
        · exact Or.inl (by rw [h]; simp [hlt])
      · exact Or.inr ⟨x, List.mem_cons_of_mem y hx, he⟩

theorem loopMin_achieved (procs : Pid → Process) (f : Process → Nat) (q : List Pid) (init : Nat)
    (h : ∃ x, x ∈ q ∧ f (procs x) ≤ init) :
    ∃ x, x ∈ q ∧ f (procs x) = loopMin procs f q init := by
  rcases loopMin_eq_init_or_mem procs f q init with he | ⟨x, hx, hev⟩
  · rcases h with ⟨x, hx, hle⟩
    refine ⟨x, hx, Nat.le_antisymm ?_ (loopMin_le procs f q init x hx)⟩
    rw [he]; exact hle
  · exact ⟨x, hx, hev.symm⟩

theorem erase_append_single (q : List Pid) (n c : Pid) (hn : n ∈ q) :
    (q ++ [c]).erase n = q.erase n ++ [c] := by
  induction q with
  | nil => cases hn
  | cons y ys ih =>
      by_cases h : y = n
      · subst h
        simp [List.erase_cons]
      · rcases List.mem_cons.mp hn with h1 | h1
        · exact absurd h1.symm h
        · simp [List.erase_cons, h, ih h1]

theorem find?_beq_some_spec (procs : Pid → Process) (f : Process → Nat) (q : List Pid)
    (m : Nat) (sel : Pid) (h : List.find? (fun x => f (procs x) == m) q = some sel) :
    sel ∈ q ∧ f (procs sel) = m := by
  refine ⟨List.mem_of_find?_eq_some h, ?_⟩
  have := List.find?_some h
  simpa using this

theorem find?_beq_isSome (procs : Pid → Process) (f : Process → Nat) (q : List Pid)
    (m : Nat) (hx : ∃ x, x ∈ q ∧ f (procs x) = m) :
    ∃ sel, List.find? (fun x => f (procs x) == m) q = some sel := by
  rcases hfind : List.find? (fun x => f (procs x) == m) q with _ | sel
  · rcases hx with ⟨x, hmem, hfx⟩
    have := List.find?_eq_none.mp hfind x hmem
    simp [hfx] at this
  · exact ⟨sel, rfl⟩

theorem updProc_prio (procs : Pid → Process) (i : Pid) (p : Process) (j : Pid) :
    (updProc procs i p j).prio = if j = i then p.prio else (procs j).prio := by
  simp only [updProc]; split <;> rfl

theorem updProc_status (procs : Pid → Process) (i : Pid) (p : Process) (j : Pid) :
    (updProc procs i p j).status = if j = i then p.status else (procs j).status := by
  simp only [updProc]; split <;> rfl

theorem updProc_prio_orig (procs : Pid → Process) (i : Pid) (p : Process) (j : Pid) :
    (updProc procs i p j).prio_orig = if j = i then p.prio_orig else (procs j).prio_orig := by
  simp only [updProc]; split <;> rfl

/-- pip_release sets the releasing owner's prio back to its prio_orig,
whatever else happens on the wait queue. -/
theorem pip_release_restores_prio :
    ∀ (st2 : State) (c2 : Pid) (rid2 : Nat) (out : State),
      pip_release st2 c2 rid2 = some out →
      (out.procs c2).prio = (st2.procs c2).prio_orig := by
  intro st2 c2 rid2 out hrel
  simp only [pip_release] at hrel
  split at hrel
  · cases hrel
  · split at hrel
    · cases hrel
      simp [updProc]
    · split at hrel
      · cases hrel
      · split at hrel
        · cases hrel
        · split at hrel
          · cases hrel
            simp only [updProc]
            split <;> simp_all
          · cases hrel
            simp [updProc]

/-- pip_acquire never changes any process's prio_orig. -/
theorem pip_acquire_prio_orig_unchanged (st : State) (cur : Pid) (rid : Nat) (q : Pid) :
    (((pip_acquire st cur rid).2).procs q).prio_orig = (st.procs q).prio_orig := by
  rcases howner : (st.resources rid).owner with _ | o
  · simp only [pip_acquire, howner]
  · simp only [pip_acquire, howner]
    split
    · simp only [updProc_prio_orig]
      by_cases h1 : q = o <;> by_cases h2 : q = cur <;> simp_all
    · simp only [updProc_prio_orig]
      by_cases h2 : q = cur <;> simp [h2]

/-- pip_acquire never lowers any process's prio. -/
theorem pip_acquire_prio_mono (st : State) (cur : Pid) (rid : Nat) (q : Pid) :
    (st.procs q).prio ≤ (((pip_acquire st cur rid).2).procs q).prio := by
  rcases howner : (st.resources rid).owner with _ | o
  · simp only [pip_acquire, howner]
    exact Nat.le_refl _
  · simp only [pip_acquire, howner]
    split
    · rename_i hcond
      simp only [updProc_prio] at hcond
      simp only [updProc_prio]
      by_cases h1 : q = o <;> by_cases h2 : q = cur <;> by_cases h3 : o = cur <;>
        simp_all <;> omega
    · simp only [updProc_prio]
      by_cases h2 : q = cur <;> simp [h2]

/-- After pip_release, each process's prio_orig is unchanged and its prio
is either unchanged or reset to that process's own prio_orig. -/
theorem pip_release_prio_char (st : State) (cur : Pid) (rid : Nat) (out : State)
    (hrel : pip_release st cur rid = some out) (q : Pid) :
    (out.procs q).prio_orig = (st.procs q).prio_orig
    ∧ ((out.procs q).prio = (st.procs q).prio
        ∨ (out.procs q).prio = (st.procs q).prio_orig) := by
  simp only [pip_release] at hrel
  split at hrel
  · cases hrel
  · split at hrel
    · cases hrel
      constructor
      · simp only [updProc_prio_orig]
        by_cases h : q = cur <;> simp [h]
      · simp only [updProc_prio]
        by_cases h : q = cur
        · exact Or.inr (by simp [h])
        · exact Or.inl (by simp [h])
    · split at hrel
      · cases hrel
      · split at hrel
        · cases hrel
        · split at hrel
          · cases hrel
            rename_i p hfind hstat htriv
            constructor
            · simp only [updProc_prio_orig]
              by_cases h1 : q = p <;> by_cases h2 : q = cur <;> by_cases h3 : p = cur <;>
                simp_all
            · simp only [updProc_prio]
              by_cases h1 : q = p
              · by_cases h2 : q = cur
                · have h3 : p = cur := h1.symm.trans h2
                  exact Or.inr (by simp [h1, h2, h3])
                · have h3 : ¬ p = cur := by rw [h1] at h2; exact h2
                  exact Or.inl (by simp [h1, h3])
              · by_cases h2 : q = cur
                · have h3 : ¬ cur = p := fun hcp => h1 (h2.trans hcp)
                  exact Or.inr (by simp [h2, h3])
                · exact Or.inl (by simp [h1, h2])
          · cases hrel
            constructor
            · simp only [updProc_prio_orig]
              by_cases h : q = cur <;> simp [h]
            · simp only [updProc_prio]
              by_cases h : q = cur
              · exact Or.inr (by simp [h])
              · exact Or.inl (by simp [h])

/-! ## The claims -/

/-- Claim C10: the Priority-variant acquire is extensionally equal to the
FCFS acquire — same boolean result and same resulting state on every
input (ownership transfer when free, otherwise WAIT plus tail-append to
the wait queue, with no priority-based reordering at acquire time). -/
theorem prio_acquire_eq_fcfs_acquire :
    ∀ (st : State) (cur : Pid) (rid : Nat), prio_acquire st cur rid = fcfs_acquire st cur rid :=
  fun _ _ _ => rfl

/-- Claim C1, code defect: the wake-up guard of pip_release compares the
length of the waiter's still-to-acquire list with itself, so a waiter
with outstanding pending acquisitions is woken anyway.  In `stC1` waiter
1 still has two pending acquisitions ([2, 3]), yet the release marks it
READY, appends it to the ready queue and empties the wait queue — the
claim requires it to remain blocked. -/
theorem pip_release_wakes_despite_pending :
    (stC1.procs 1).resourcesToAcquire = [2, 3]
    ∧ (pip_release stC1 0 0).map
        (fun s => ((s.procs 1).status, s.readyqueue, (s.resources 0).waitqueue))
      = some (Status.READY, [1], []) := by
  decide

/-- Claim C2, code defect: in prio_release the scan for the
maximal-`prio_orig` waiter is discarded (the declaration at pa2.c line
407 shadows the loop variable with the queue head), so release wakes the
head of the wait queue, not the maximum.  In `stC2` the queue is [1, 2]
with prio_orig 1 and 5: the release wakes 1 and leaves the maximal
waiter 2 blocked on the wait queue. -/
theorem prio_release_wakes_head_not_max :
    (stC2.procs 1).prio_orig = 1
    ∧ (stC2.procs 2).prio_orig = 5
    ∧ (stC2.resources 0).waitqueue = [1, 2]
    ∧ (prio_release stC2 0 0).map
        (fun s => ((s.procs 1).status, (s.procs 2).status, s.readyqueue, (s.resources 0).waitqueue))
      = some (Status.READY, Status.WAIT, [1], [2]) := by
  decide

/-- Claim C3, counterexample: a ready process whose priority merely
equals the running process's does preempt it.  In `stC3` the running
process 1 and ready process 2 both have priority 5 and process 1 has
remaining lifetime, yet both prio_schedule and pip_schedule requeue
process 1 and dispatch process 2 — the claim says a tie lets the running
process continue. -/
theorem prio_tie_preempt_counterexample :
    (stC3.procs 1).prio_orig = 5
    ∧ (stC3.procs 2).prio_orig = 5
    ∧ stC3.current = some 1
    ∧ stC3.readyqueue = [2]
    ∧ (stC3.procs 1).age < (stC3.procs 1).lifespan
    ∧ (prio_schedule stC3).1 = some 2
    ∧ (prio_schedule stC3).2.readyqueue = [1]
    ∧ (pip_schedule stC3).1 = some 2 := by
  decide

/-- Claim C7: under Round-Robin, a running unfinished process is
requeued at the ready-queue tail and the head of the ready queue is
dispatched whenever the ready queue is non-empty (quantum of one tick);
and from the start state `stC7` (ready queue [P1 (lifespan 3),
P2 (lifespan 2)], tick 1 dispatching P1 — the sense in which P1 starts
out running) the dispatch sequence over five ticks is P1, P2, P1, P2, P1
and both processes have exhausted their lifespans at tick 5.  The tick
driver (`rr_tick`: make the dispatched process current, advance its age)
is modelled from the spec, the driver being outside pa2.c. -/
theorem rr_quantum_one_and_trace :
    (∀ (st : State) (c : Pid) (w : Pid) (ws : List Pid),
        st.current = some c →
        (st.procs c).status ≠ Status.WAIT →
        (st.procs c).age < (st.procs c).lifespan →
        st.readyqueue = w :: ws →
        rr_schedule st = (some w, { st with readyqueue := ws ++ [c] }))
    ∧ (rr_run stC7 5).1 = [some 1, some 2, some 1, some 2, some 1]
    ∧ ((rr_run stC7 5).2.procs 1).age = (stC7.procs 1).lifespan
    ∧ ((rr_run stC7 5).2.procs 2).age = (stC7.procs 2).lifespan := by
  refine ⟨?_, by decide, by decide, by decide⟩
  intro st c w ws hc hw hl hq
  have hne : (st.procs c).age ≠ (st.procs c).lifespan := Nat.ne_of_lt hl
  simp only [rr_schedule, hc, hq]
  rw [if_neg (by simp [hw, hne]), if_neg (by simp), if_pos (by simp)]
  rfl

/-- Witness for the Round-Robin claim: in `stC7w` process 1 is running
and unfinished with ready queue [2], and rr_schedule dispatches 2 while
requeueing 1 at the tail. -/
theorem rr_quantum_one_and_trace_witness :
    rr_schedule stC7w = (some 2, { stC7w with readyqueue := [1] }) :=
  rr_quantum_one_and_trace.1 stC7w 1 2 [] rfl (by decide) (by decide) rfl

/-- Claim C8: fcfs_release aborts (returns `none`, modelling the fatal
`assert`) exactly when the releasing process is not the owner or the
woken head waiter is not in WAIT status; under the owner precondition it
clears ownership, and with a non-empty wait queue it wakes exactly the
head waiter — WAIT to READY, appended at the ready-queue tail — leaving
the remaining waiters in place. -/
theorem fcfs_release_spec (st : State) (cur : Pid) (rid : Nat) :
    (fcfs_release st cur rid = none ↔
      (st.resources rid).owner ≠ some cur
      ∨ ∃ w ws, (st.resources rid).waitqueue = w :: ws ∧ (st.procs w).status ≠ Status.WAIT)
    ∧ ((st.resources rid).owner = some cur →
        ((st.resources rid).waitqueue = [] →
            fcfs_release st cur rid
              = some { st with resources := updRes st.resources rid { st.resources rid with owner := none } })
        ∧ ∀ w ws, (st.resources rid).waitqueue = w :: ws →
            (st.procs w).status = Status.WAIT →
            fcfs_release st cur rid
              = some { st with
                  procs := updProc st.procs w { st.procs w with status := Status.READY },
                  readyqueue := st.readyqueue ++ [w],
                  resources := updRes st.resources rid { owner := none, waitqueue := ws } }) := by
  by_cases ho : (st.resources rid).owner = some cur
  · rcases hq : (st.resources rid).waitqueue with _ | ⟨w, ws⟩
    · refine ⟨by simp [fcfs_release, ho, hq],
        fun _ => ⟨fun _ => ?_, fun w2 ws2 hcontra _ => (by cases hcontra)⟩⟩
      simp [fcfs_release, ho, hq]
    · by_cases hs : (st.procs w).status = Status.WAIT
      · refine ⟨?_, fun _ => ⟨fun hcontra => (by cases hcontra), fun w2 ws2 he hs2 => ?_⟩⟩
        · simp [fcfs_release, ho, hq, hs]
        · cases he
          simp [fcfs_release, ho, hq, hs, updRes_updRes]
      · refine ⟨?_, fun _ => ⟨fun hcontra => (by cases hcontra), fun w2 ws2 he hs2 => ?_⟩⟩
        · simp only [fcfs_release, ho, hq]
          simp [hs, ho]
        · cases he
          exact absurd hs2 hs
  · refine ⟨by simp [fcfs_release, ho], fun h => absurd h ho⟩

/-- Witness for the fcfs_release claim: in `stC8w` process 0 owns
resource 0 with waiter 1 in WAIT status, and the release wakes exactly
that waiter onto the ready-queue tail. -/
theorem fcfs_release_spec_witness :
    fcfs_release stC8w 0 0
      = some { stC8w with
          procs := updProc stC8w.procs 1 { stC8w.procs 1 with status := Status.READY },
          readyqueue := stC8w.readyqueue ++ [1],
          resources := updRes stC8w.resources 0 { owner := none, waitqueue := [] } } :=
  ((fcfs_release_spec stC8w 0 0).2 rfl).2 1 [] rfl rfl

/-- Claim C4: on an owned resource, pip_acquire boosts the owner's prio
to the requester's prio exactly when the requester's current prio
strictly exceeds the owner's (and changes no prio otherwise); in every
owned case the requester becomes WAIT, is appended to the wait-queue
tail and `false` is returned; and pip_release restores the releasing
owner's prio to its prio_orig. -/
theorem pip_inheritance_correct (st : State) (cur : Pid) (rid : Nat) (o : Pid)
    (ho : (st.resources rid).owner = some o) :
    ((st.procs o).prio < (st.procs cur).prio →
        (((pip_acquire st cur rid).2).procs o).prio = (st.procs cur).prio)
    ∧ (¬ (st.procs o).prio < (st.procs cur).prio →
        ∀ q, (((pip_acquire st cur rid).2).procs q).prio = (st.procs q).prio)
    ∧ (pip_acquire st cur rid).1 = false
    ∧ (((pip_acquire st cur rid).2).procs cur).status = Status.WAIT
    ∧ ((pip_acquire st cur rid).2.resources rid).waitqueue = (st.resources rid).waitqueue ++ [cur]
    ∧ ∀ (st2 : State) (c2 : Pid) (rid2 : Nat) (out : State),
        pip_release st2 c2 rid2 = some out →
        (out.procs c2).prio = (st2.procs c2).prio_orig := by
  refine ⟨?_, ?_, ?_, ?_, ?_, pip_release_restores_prio⟩
  · intro hlt
    simp only [pip_acquire, ho]
    rw [if_pos (by simp only [updProc_prio]; by_cases h : o = cur <;> simp_all)]
    simp [updProc_prio]
  · intro hlt q
    simp only [pip_acquire, ho]
    rw [if_neg (by simp only [updProc_prio]; by_cases h : o = cur <;> simp_all)]
    simp only [updProc_prio]
    by_cases h : q = cur <;> simp [h]
  · simp only [pip_acquire, ho]
  · simp only [pip_acquire, ho]
    split
    · simp only [updProc_status]
      by_cases h : cur = o <;> simp [h]
    · simp [updProc_status]
  · simp only [pip_acquire, ho]
    split <;> simp [updRes]

/-- Witness for the priority-inheritance claim: in `stC4w` process 2
(prio 1) owns resource 0 and process 1 (prio 5) requests it: the owner's
prio is boosted to 5, the call fails, and the requester becomes WAIT. -/
theorem pip_inheritance_correct_witness :
    ((pip_acquire stC4w 1 0).2.procs 2).prio = (stC4w.procs 1).prio
    ∧ (pip_acquire stC4w 1 0).1 = false
    ∧ ((pip_acquire stC4w 1 0).2.procs 1).status = Status.WAIT :=
  ⟨(pip_inheritance_correct stC4w 1 0 2 rfl).1 (by decide),
   (pip_inheritance_correct stC4w 1 0 2 rfl).2.2.1,
   (pip_inheritance_correct stC4w 1 0 2 rfl).2.2.2.1⟩

/-- Claim C9: the invariant prio ≥ prio_orig is preserved by the
priority-inheritance operations: pip_acquire only ever raises prios
(never touching prio_orig), and pip_release resets the releasing owner's
prio exactly to prio_orig, so no operation drives a prio below its
prio_orig. -/
theorem prio_ge_prio_orig_invariant (st : State)
    (hinv : ∀ q, (st.procs q).prio_orig ≤ (st.procs q).prio) :
    (∀ (cur : Pid) (rid : Nat) (q : Pid),
        (st.procs q).prio ≤ (((pip_acquire st cur rid).2).procs q).prio
        ∧ (((pip_acquire st cur rid).2).procs q).prio_orig
            ≤ (((pip_acquire st cur rid).2).procs q).prio)
    ∧ (∀ (cur : Pid) (rid : Nat) (out : State), pip_release st cur rid = some out →
        ∀ q, (out.procs q).prio_orig ≤ (out.procs q).prio) := by
  constructor
  · intro cur rid q
    have h1 := pip_acquire_prio_mono st cur rid q
    have h2 := pip_acquire_prio_orig_unchanged st cur rid q
    have h3 := hinv q
    exact ⟨h1, by omega⟩
  · intro cur rid out hrel q
    have h1 := (pip_release_prio_char st cur rid out hrel q).1
    have h2 := (pip_release_prio_char st cur rid out hrel q).2
    have h3 := hinv q
    rcases h2 with h2 | h2 <;> omega

/-- Witness for the prio-invariant claim: in `stC9w` every process has
prio 3 ≥ prio_orig 1, and after a pip_acquire call the invariant facts
hold at process 7. -/
theorem prio_ge_prio_orig_invariant_witness :
    (stC9w.procs 7).prio ≤ ((pip_acquire stC9w 1 0).2.procs 7).prio
    ∧ ((pip_acquire stC9w 1 0).2.procs 7).prio_orig
        ≤ ((pip_acquire stC9w 1 0).2.procs 7).prio :=
  (prio_ge_prio_orig_invariant stC9w (fun _ => (by decide : (1 : Nat) ≤ 3))).1 1 0 7

/-- An unfinished running process keeps running when every ready process
compares strictly below it under `f`. -/
theorem prio_like_continue (f : Process → Nat) (st : State) (c : Pid)
    (hc : st.current = some c) (hw : (st.procs c).status ≠ Status.WAIT)
    (hl : (st.procs c).age < (st.procs c).lifespan)
    (hall : ∀ x ∈ st.readyqueue, f (st.procs x) < f (st.procs c)) :
    prio_like_schedule f st = (some c, st) := by
  have hne : (st.procs c).age ≠ (st.procs c).lifespan := Nat.ne_of_lt hl
  rcases hq : st.readyqueue with _ | ⟨w, ws⟩
  · simp only [prio_like_schedule, hc, hq]
    rw [if_neg (by simp [hw, hne]), if_pos ⟨hl, trivial⟩]
  · have hnone : List.find?
        (fun x => f (st.procs x) == loopMax st.procs f (w :: ws) (f (st.procs c)))
        (w :: ws) = none := by
      rw [List.find?_eq_none]
      intro x hx
      simp only [beq_iff_eq]
      intro heq
      have h1 := hall x (by rw [hq]; exact hx)
      have h2 := loopMax_init_le st.procs f (w :: ws) (f (st.procs c))
      omega
    simp only [prio_like_schedule, hc, hq]
    rw [if_neg (by simp [hw, hne]), if_neg (by simp), hnone]

/-- When some ready process compares greater than or equal to the
unfinished running process under `f`, the first ready process attaining
the maximum is dispatched and the running process is requeued at the
tail. -/
theorem prio_like_preempt (f : Process → Nat) (st : State) (c : Pid)
    (hc : st.current = some c) (hw : (st.procs c).status ≠ Status.WAIT)
    (hl : (st.procs c).age < (st.procs c).lifespan)
    (hex : ∃ x ∈ st.readyqueue, f (st.procs c) ≤ f (st.procs x)) :
    ∃ sel ∈ st.readyqueue,
      f (st.procs c) ≤ f (st.procs sel)
      ∧ (∀ x ∈ st.readyqueue, f (st.procs x) ≤ f (st.procs sel))
      ∧ prio_like_schedule f st
          = (some sel, { st with readyqueue := st.readyqueue.erase sel ++ [c] }) := by
  rcases hex with ⟨x0, hx0, hfx0⟩
  rcases hq : st.readyqueue with _ | ⟨w, ws⟩
  · rw [hq] at hx0; cases hx0
  · rw [hq] at hx0
    have hach : ∃ y, y ∈ w :: ws
        ∧ f (st.procs y) = loopMax st.procs f (w :: ws) (f (st.procs c)) :=
      loopMax_achieved st.procs f (w :: ws) (f (st.procs c)) ⟨x0, hx0, hfx0⟩
    rcases find?_beq_isSome st.procs f (w :: ws)
        (loopMax st.procs f (w :: ws) (f (st.procs c))) hach with ⟨sel, hfind⟩
    have hspec := find?_beq_some_spec st.procs f (w :: ws) _ sel hfind
    have hinit := loopMax_init_le st.procs f (w :: ws) (f (st.procs c))
    have hne : (st.procs c).age ≠ (st.procs c).lifespan := Nat.ne_of_lt hl
    refine ⟨sel, hspec.1, ?_, ?_, ?_⟩
    · rw [hspec.2]; exact hinit
    · intro x hx
      rw [hspec.2]
      exact le_loopMax st.procs f (w :: ws) (f (st.procs c)) x hx
    · simp only [prio_like_schedule, hc, hq]
      rw [if_neg (by simp [hw, hne]), if_neg (by simp), hfind]
      have herase := erase_append_single (w :: ws) sel c hspec.1
      simp only [List.cons_append] at herase ⊢
      rw [herase]

/-- Claim C3, amended: with a running, unfinished process, a ready
process whose priority is strictly below the running one's never
preempts it (the running process continues); the running process is
requeued and replaced exactly when some ready process's priority is
greater than or equal to the running one's — on a tie the ready process
preempts the incumbent — and the dispatched process attains the maximum
priority of the ready queue.  Priority compares `prio_orig`, PIP
compares the current `prio`. -/
theorem prio_pip_preempt_on_ge (st : State) (c : Pid)
    (hc : st.current = some c) (hw : (st.procs c).status ≠ Status.WAIT)
    (hl : (st.procs c).age < (st.procs c).lifespan) :
    ((∀ x ∈ st.readyqueue, (st.procs x).prio_orig < (st.procs c).prio_orig) →
        prio_schedule st = (some c, st))
    ∧ ((∃ x ∈ st.readyqueue, (st.procs c).prio_orig ≤ (st.procs x).prio_orig) →
        ∃ sel ∈ st.readyqueue,
          (st.procs c).prio_orig ≤ (st.procs sel).prio_orig
          ∧ (∀ x ∈ st.readyqueue, (st.procs x).prio_orig ≤ (st.procs sel).prio_orig)
          ∧ prio_schedule st = (some sel, { st with readyqueue := st.readyqueue.erase sel ++ [c] }))
    ∧ ((∀ x ∈ st.readyqueue, (st.procs x).prio < (st.procs c).prio) →
        pip_schedule st = (some c, st))
    ∧ ((∃ x ∈ st.readyqueue, (st.procs c).prio ≤ (st.procs x).prio) →
        ∃ sel ∈ st.readyqueue,
          (st.procs c).prio ≤ (st.procs sel).prio
          ∧ (∀ x ∈ st.readyqueue, (st.procs x).prio ≤ (st.procs sel).prio)
          ∧ pip_schedule st = (some sel, { st with readyqueue := st.readyqueue.erase sel ++ [c] })) :=
  ⟨fun h => prio_like_continue _ st c hc hw hl h,
   fun h => prio_like_preempt _ st c hc hw hl h,
   fun h => prio_like_continue _ st c hc hw hl h,
   fun h => prio_like_preempt _ st c hc hw hl h⟩

/-- Witness for the amended preemption claim: in `stC3w` the running
process 1 has prio_orig 3 and the ready process 2 has prio_orig 5, so
prio_schedule dispatches 2 and requeues 1. -/
theorem prio_pip_preempt_on_ge_witness :
    prio_schedule stC3w = (some 2, { stC3w with readyqueue := [1] }) := by
  have h := (prio_pip_preempt_on_ge stC3w 1 rfl (by decide) (by decide)).2.1
      ⟨2, by decide, by decide⟩
  rcases h with ⟨sel, hmem, hge, hmax, heq⟩
  have hs : sel = 2 := by simpa [stC3w] using hmem
  subst hs
  exact heq

/-- The srtf `pick_next` tail dispatches a process whose remaining time
is at most that of everything left on the ready queue. -/
theorem srtf_pick_spec (st : State) (p x : Pid)
    (hp : (srtf_pick (List.find? (fun y => remaining (st.procs y)
        == loopMin st.procs remaining st.readyqueue 100000) st.readyqueue) st).1 = some p)
    (hx : x ∈ (srtf_pick (List.find? (fun y => remaining (st.procs y)
        == loopMin st.procs remaining st.readyqueue 100000) st.readyqueue) st).2.readyqueue) :
    remaining (st.procs p) ≤ remaining (st.procs x) := by
  rcases hfind : List.find? (fun y => remaining (st.procs y)
      == loopMin st.procs remaining st.readyqueue 100000) st.readyqueue with _ | n
  · simp only [srtf_pick, hfind] at hp
    cases hp
  · have hspec := find?_beq_some_spec st.procs remaining st.readyqueue _ n hfind
    simp only [srtf_pick, hfind] at hp hx
    cases hp
    rw [hspec.2]
    exact loopMin_le st.procs remaining st.readyqueue 100000 x (List.mem_of_mem_erase hx)

/-- Whatever srtf_schedule dispatches has remaining time at most that of
every process left on the ready queue. -/
theorem srtf_conjA (st : State) :
    ∀ p, (srtf_schedule st).1 = some p →
      ∀ x ∈ (srtf_schedule st).2.readyqueue,
        remaining (st.procs p) ≤ remaining (st.procs x) := by
  intro p hp x hx
  have hminle := loopMin_le st.procs remaining st.readyqueue 100000
  rcases hc2 : st.current with _ | c
  · simp only [srtf_schedule, hc2] at hp hx
    exact srtf_pick_spec st p x hp hx
  · simp only [srtf_schedule, hc2] at hp hx
    by_cases hw : (st.procs c).status = Status.WAIT
    · rw [if_pos hw] at hp hx
      exact srtf_pick_spec st p x hp hx
    · rw [if_neg hw] at hp hx
      by_cases hage : (st.procs c).age < (st.procs c).lifespan
      · rw [if_pos hage] at hp hx
        by_cases hlt : loopMin st.procs remaining st.readyqueue 100000
            < remaining (st.procs c)
        · rw [if_pos hlt] at hp hx
          rcases hfind : List.find? (fun y => remaining (st.procs y)
              == loopMin st.procs remaining st.readyqueue 100000) st.readyqueue with _ | n
          · simp only [srtf_pick, hfind] at hp
            cases hp
          · have hspec := find?_beq_some_spec st.procs remaining st.readyqueue _ n hfind
            simp only [srtf_pick, hfind] at hp hx
            cases hp
            rw [hspec.2]
            have hx2 := List.mem_of_mem_erase hx
            rcases List.mem_append.mp hx2 with h | h
            · exact hminle x h
            · have hxc : x = c := by simpa using h
              rw [hxc]
              exact Nat.le_of_lt hlt
        · rw [if_neg hlt] at hp hx
          cases hp
          exact Nat.le_trans (Nat.le_of_not_lt hlt) (hminle x hx)
      · rw [if_neg hage] at hp hx
        exact srtf_pick_spec st p x hp hx

/-- A running, unfinished process is preempted by srtf_schedule exactly
when some ready process has strictly smaller remaining time. -/
theorem srtf_conjB (st : State) (c : Pid)
    (hc2 : st.current = some c)
    (hw : (st.procs c).status ≠ Status.WAIT)
    (hage : (st.procs c).age < (st.procs c).lifespan)
    (hq : ∀ x ∈ st.readyqueue, remaining (st.procs x) ≤ 100000)
    (hcap : remaining (st.procs c) ≤ 100000) :
    ((∃ x ∈ st.readyqueue, remaining (st.procs x) < remaining (st.procs c)) →
        ∃ sel ∈ st.readyqueue,
          srtf_schedule st
            = (some sel, { st with readyqueue := st.readyqueue.erase sel ++ [c] }))
    ∧ ((∀ x ∈ st.readyqueue, remaining (st.procs c) ≤ remaining (st.procs x)) →
        srtf_schedule st = (some c, st)) := by
  constructor
  · intro hex
    rcases hex with ⟨x0, hx0, hlt0⟩
    have hlt : loopMin st.procs remaining st.readyqueue 100000 < remaining (st.procs c) :=
      Nat.lt_of_le_of_lt (loopMin_le st.procs remaining st.readyqueue 100000 x0 hx0) hlt0
    have hach := loopMin_achieved st.procs remaining st.readyqueue 100000
        ⟨x0, hx0, hq x0 hx0⟩
    rcases find?_beq_isSome st.procs remaining st.readyqueue _ hach with ⟨n, hfind⟩
    have hspec := find?_beq_some_spec st.procs remaining st.readyqueue _ n hfind
    refine ⟨n, hspec.1, ?_⟩
    simp only [srtf_schedule, hfind, hc2, srtf_pick]
    rw [if_neg hw, if_pos hage, if_pos hlt, erase_append_single st.readyqueue n c hspec.1]
  · intro hall
    have hle : remaining (st.procs c) ≤ loopMin st.procs remaining st.readyqueue 100000 := by
      rcases loopMin_eq_init_or_mem st.procs remaining st.readyqueue 100000 with hm | ⟨y, hy, hm⟩
      · rw [hm]; exact hcap
      · rw [hm]; exact hall y hy
    have hnlt : ¬ loopMin st.procs remaining st.readyqueue 100000 < remaining (st.procs c) :=
      Nat.not_lt.mpr hle
    simp only [srtf_schedule, hc2, srtf_pick]
    rw [if_neg hw, if_pos hage, if_neg hnlt]

/-- Claim C5: under SRTF (with every remaining time within the code's
100000 scan sentinel), the dispatched process's remaining time is at
most that of every process left on the ready queue; a running unfinished
process is requeued at the tail and replaced exactly when some ready
process's remaining time is strictly smaller, and on a tie it continues;
and `remaining` agrees with lifespan - age on in-range values (the code
computes it in unsigned arithmetic). -/
theorem srtf_min_remaining (st : State)
    (hq : ∀ x ∈ st.readyqueue, remaining (st.procs x) ≤ 100000)
    (hcur : ∀ c, st.current = some c → remaining (st.procs c) ≤ 100000) :
    (∀ p, (srtf_schedule st).1 = some p →
        ∀ x ∈ (srtf_schedule st).2.readyqueue,
          remaining (st.procs p) ≤ remaining (st.procs x))
    ∧ (∀ c, st.current = some c → (st.procs c).status ≠ Status.WAIT →
        (st.procs c).age < (st.procs c).lifespan →
        ((∃ x ∈ st.readyqueue, remaining (st.procs x) < remaining (st.procs c)) →
            ∃ sel ∈ st.readyqueue,
              srtf_schedule st
                = (some sel, { st with readyqueue := st.readyqueue.erase sel ++ [c] }))
        ∧ ((∀ x ∈ st.readyqueue, remaining (st.procs c) ≤ remaining (st.procs x)) →
            srtf_schedule st = (some c, st)))
    ∧ (∀ p : Process, p.age ≤ p.lifespan → p.lifespan < U32 →
        remaining p = p.lifespan - p.age) :=
  ⟨srtf_conjA st,
   fun c hc2 hw hage => srtf_conjB st c hc2 hw hage hq (hcur c hc2),
   fun p h1 h2 => by
     unfold U32 at h2
     unfold remaining u32sub U32
     omega⟩

/-- Witness for the SRTF claim: in `stC5w` process 1 is running with
remaining time 5 and ready process 2 has remaining time 2, so
srtf_schedule dispatches 2 and requeues 1 at the tail. -/
theorem srtf_min_remaining_witness :
    srtf_schedule stC5w = (some 2, { stC5w with readyqueue := [1] }) := by
  have h := ((srtf_min_remaining stC5w (by decide)
      (fun c hc => by
        have h2 : some 1 = some c := hc
        cases h2
        decide)).2.1 1 rfl (by decide) (by decide)).1 ⟨2, by decide, by decide⟩
  rcases h with ⟨sel, hmem, heq⟩
  have hs : sel = 2 := by simpa [stC5w] using hmem
  subst hs
  exact heq

/-- fcfs_acquire keeps the queues duplicate-free and pairwise disjoint
when the requesting (running) process is on no queue. -/
theorem fcfs_acquire_preserves_disjoint (st : State) (cur : Pid) (rid : Nat)
    (hd : QueuesDisjoint st) (hcur : Unqueued st cur) :
    QueuesDisjoint ((fcfs_acquire st cur rid).2) := by
  obtain ⟨hnr, hnw, hwr, hww⟩ := hd
  obtain ⟨hcr, hcw⟩ := hcur
  rcases howner : (st.resources rid).owner with _ | o
  · simp only [fcfs_acquire, howner]
    refine ⟨hnr, ?_, ?_, ?_⟩
    · intro i
      simp only [updRes_apply]
      split
      · exact hnw rid
      · exact hnw i
    · intro i x hx
      simp only [updRes_apply] at hx
      split at hx
      · exact hwr rid x hx
      · exact hwr i x hx
    · intro i j hij x hxi
      simp only [updRes_apply] at hxi ⊢
      by_cases hi : i = rid <;> by_cases hj : j = rid
      · exact absurd (hi.trans hj.symm) hij
      · rw [if_pos hi] at hxi
        rw [if_neg hj]
        exact hww rid j (hi ▸ hij) x hxi
      · rw [if_neg hi] at hxi
        rw [if_pos hj]
        exact hww i rid (hj ▸ hij) x hxi
      · rw [if_neg hi] at hxi
        rw [if_neg hj]
        exact hww i j hij x hxi
  · simp only [fcfs_acquire, howner]
    refine ⟨hnr, ?_, ?_, ?_⟩
    · intro i
      simp only [updRes_apply]
      split
      · rw [List.nodup_append]
        exact ⟨hnw rid, List.nodup_singleton cur,
          fun a ha hb => hcw rid (List.mem_singleton.mp hb ▸ ha)⟩
      · exact hnw i
    · intro i x hx
      simp only [updRes_apply] at hx
      split at hx
      · rcases List.mem_append.mp hx with h | h
        · exact hwr rid x h
        · rw [List.mem_singleton.mp h]; exact hcr
      · exact hwr i x hx
    · intro i j hij x hxi
      simp only [updRes_apply] at hxi ⊢
      by_cases hi : i = rid <;> by_cases hj : j = rid
      · exact absurd (hi.trans hj.symm) hij
      · rw [if_pos hi] at hxi
        rw [if_neg hj]
        rcases List.mem_append.mp hxi with h | h
        · exact hww rid j (hi ▸ hij) x h
        · rw [List.mem_singleton.mp h]; exact hcw j
      · rw [if_neg hi] at hxi
        rw [if_pos hj]
        intro hxj
        rcases List.mem_append.mp hxj with h | h
        · exact hww i rid (hj ▸ hij) x hxi h
        · exact hcw i (List.mem_singleton.mp h ▸ hxi)
      · rw [if_neg hi] at hxi
        rw [if_neg hj]
        exact hww i j hij x hxi

/-- fcfs_release keeps the queues duplicate-free and pairwise disjoint:
it moves the woken head waiter from the wait queue to the ready-queue
tail. -/
theorem fcfs_release_preserves_disjoint (st : State) (cur : Pid) (rid : Nat) (out : State)
    (hd : QueuesDisjoint st) (hrel : fcfs_release st cur rid = some out) :
    QueuesDisjoint out := by
  obtain ⟨hnr, hnw, hwr, hww⟩ := hd
  simp only [fcfs_release] at hrel
  split at hrel
  · cases hrel
  · split at hrel
    · cases hrel
      rename_i heq
      refine ⟨hnr, ?_, ?_, ?_⟩
      · intro i
        simp only [updRes_apply]
        split
        · exact hnw rid
        · exact hnw i
      · intro i x hx
        simp only [updRes_apply] at hx
        split at hx
        · exact hwr rid x hx
        · exact hwr i x hx
      · intro i j hij x hxi
        simp only [updRes_apply] at hxi ⊢
        by_cases hi : i = rid <;> by_cases hj : j = rid
        · exact absurd (hi.trans hj.symm) hij
        · rw [if_pos hi] at hxi
          rw [if_neg hj]
          exact hww rid j (hi ▸ hij) x hxi
        · rw [if_neg hi] at hxi
          rw [if_pos hj]
          exact hww i rid (hj ▸ hij) x hxi
        · rw [if_neg hi] at hxi
          rw [if_neg hj]
          exact hww i j hij x hxi
    · rename_i w ws heq
      split at hrel
      · cases hrel
      · cases hrel
        rename_i hstat
        have hwmem : w ∈ (st.resources rid).waitqueue := by
          rw [heq]; exact List.mem_cons_self w ws
        have hwnr : w ∉ st.readyqueue := hwr rid w hwmem
        have hnwrid := hnw rid
        rw [heq] at hnwrid
        refine ⟨?_, ?_, ?_, ?_⟩
        · rw [List.nodup_append]
          exact ⟨hnr, List.nodup_singleton w,
            fun a ha hb => hwnr (List.mem_singleton.mp hb ▸ ha)⟩
        · intro i
          simp only [updRes_updRes]
          simp only [updRes_apply]
          split
          · exact (List.nodup_cons.mp hnwrid).2
          · exact hnw i
        · intro i x hx
          simp only [updRes_updRes] at hx
          simp only [updRes_apply] at hx
          intro hmem
          rcases List.mem_append.mp hmem with h | h
          · split at hx
            · exact hwr rid x (by rw [heq]; exact List.mem_cons_of_mem w hx) h
            · exact hwr i x hx h
          · have hxw : x = w := List.mem_singleton.mp h
            split at hx
            · rw [hxw] at hx
              exact (List.nodup_cons.mp hnwrid).1 hx
            · rename_i hi
              rw [hxw] at hx
              exact hww i rid hi w hx hwmem
        · intro i j hij x hxi
          simp only [updRes_updRes] at hxi ⊢
          simp only [updRes_apply] at hxi ⊢
          by_cases hi : i = rid <;> by_cases hj : j = rid
          · exact absurd (hi.trans hj.symm) hij
          · rw [if_pos hi] at hxi
            rw [if_neg hj]
            exact hww rid j (hi ▸ hij) x (by rw [heq]; exact List.mem_cons_of_mem w hxi)
          · rw [if_neg hi] at hxi
            rw [if_pos hj]
            intro hxj
            exact hww i rid (hj ▸ hij) x hxi (by rw [heq]; exact List.mem_cons_of_mem w hxj)
          · rw [if_neg hi] at hxi
            rw [if_neg hj]
            exact hww i j hij x hxi

/-- The srtf `pick_next` tail keeps the queue invariant and unlinks the
dispatched process from every queue. -/
theorem srtf_pick_disjoint (sel : Option Pid) (st : State)
    (hd : QueuesDisjoint st)
    (hsel : ∀ n, sel = some n → n ∈ st.readyqueue) :
    QueuesDisjoint ((srtf_pick sel st).2)
    ∧ ∀ p, (srtf_pick sel st).1 = some p → Unqueued ((srtf_pick sel st).2) p := by
  obtain ⟨hnr, hnw, hwr, hww⟩ := hd
  rcases sel with _ | n
  · exact ⟨⟨hnr, hnw, hwr, hww⟩, fun p hp => by cases hp⟩
  · have hnmem := hsel n rfl
    simp only [srtf_pick]
    refine ⟨⟨hnr.erase n, hnw, ?_, hww⟩, ?_⟩
    · intro i x hx hmem
      exact hwr i x hx (List.mem_of_mem_erase hmem)
    · intro p hp
      cases hp
      constructor
      · intro hmem
        exact ((hnr.mem_erase_iff).mp hmem).1 rfl
      · intro i hmem
        exact hwr i n hmem hnmem

/-- srtf_schedule keeps the queue invariant, and the process it returns
is linked into no queue. -/
theorem srtf_preserves_disjoint (st : State)
    (hd : QueuesDisjoint st)
    (hcur : ∀ c, st.current = some c → Unqueued st c) :
    QueuesDisjoint ((srtf_schedule st).2)
    ∧ ∀ p, (srtf_schedule st).1 = some p → Unqueued ((srtf_schedule st).2) p := by
  rcases hc2 : st.current with _ | c
  · simp only [srtf_schedule, hc2]
    exact srtf_pick_disjoint _ st hd (fun n hn => List.mem_of_find?_eq_some hn)
  · have hcq := hcur c hc2
    simp only [srtf_schedule, hc2]
    by_cases hw : (st.procs c).status = Status.WAIT
    · rw [if_pos hw]
      exact srtf_pick_disjoint _ st hd (fun n hn => List.mem_of_find?_eq_some hn)
    · rw [if_neg hw]
      by_cases hage : (st.procs c).age < (st.procs c).lifespan
      · rw [if_pos hage]
        by_cases hlt : loopMin st.procs remaining st.readyqueue 100000
            < remaining (st.procs c)
        · rw [if_pos hlt]
          have hd' : QueuesDisjoint { st with readyqueue := st.readyqueue ++ [c] } := by
            obtain ⟨hnr, hnw, hwr, hww⟩ := hd
            obtain ⟨hcr, hcw⟩ := hcq
            refine ⟨?_, hnw, ?_, hww⟩
            · rw [List.nodup_append]
              exact ⟨hnr, List.nodup_singleton c,
                fun a ha hb => hcr (List.mem_singleton.mp hb ▸ ha)⟩
            · intro i x hx hmem
              rcases List.mem_append.mp hmem with h | h
              · exact hwr i x hx h
              · exact hcw i (List.mem_singleton.mp h ▸ hx)
          exact srtf_pick_disjoint _ _ hd'
            (fun n hn => List.mem_append_left [c] (List.mem_of_find?_eq_some hn))
        · rw [if_neg hlt]
          exact ⟨hd, fun p hp => by cases hp; exact hcq⟩
      · rw [if_neg hage]
        exact srtf_pick_disjoint _ st hd (fun n hn => List.mem_of_find?_eq_some hn)

/-- Claim C6: every process belongs to at most one collection.  Starting
from pairwise-disjoint, duplicate-free queues with the running process
on no queue, fcfs_acquire and fcfs_release preserve the invariant (so no
process is simultaneously on the ready queue and a wait queue, or twice
on one queue), and the process returned by srtf_schedule is on no queue
at all. -/
theorem queue_membership_exclusive (st : State) (cur : Pid) (rid : Nat)
    (hd : QueuesDisjoint st) (hcur : Unqueued st cur)
    (hrun : ∀ c, st.current = some c → Unqueued st c) :
    QueuesDisjoint ((fcfs_acquire st cur rid).2)
    ∧ (∀ out, fcfs_release st cur rid = some out → QueuesDisjoint out)
    ∧ QueuesDisjoint ((srtf_schedule st).2)
    ∧ (∀ p, (srtf_schedule st).1 = some p → Unqueued ((srtf_schedule st).2) p) :=
  ⟨fcfs_acquire_preserves_disjoint st cur rid hd hcur,
   fun out hrel => fcfs_release_preserves_disjoint st cur rid out hd hrel,
   (srtf_preserves_disjoint st hd hrun).1,
   (srtf_preserves_disjoint st hd hrun).2⟩

/-- Witness for the membership claim: `stC6w` satisfies the invariant
(ready queue [1], resource 0 waited on by 2, running process 0 on no
queue), and the invariant still holds after fcfs_acquire and after
srtf_schedule. -/
theorem queue_membership_exclusive_witness :
    QueuesDisjoint ((fcfs_acquire stC6w 0 0).2)
    ∧ QueuesDisjoint ((srtf_schedule stC6w).2) := by
  have hd : QueuesDisjoint stC6w := by
    refine ⟨by decide, ?_, ?_, ?_⟩
    · intro i
      by_cases hi : i = 0 <;> simp [stC6w, hi]
    · intro i x hx
      by_cases hi : i = 0
      · simp [stC6w, hi] at hx ⊢
        simp [hx]
      · simp [stC6w, hi] at hx
    · intro i j hij x hxi
      by_cases hi : i = 0 <;> simp [stC6w, hi] at hxi
      have hj : ¬ j = 0 := by
        intro hj0
        exact hij (by rw [hi, hj0])
      simp [stC6w, hj]
  have hcur : Unqueued stC6w 0 := by
    constructor
    · decide
    · intro i
      by_cases hi : i = 0 <;> simp [stC6w, hi]
  have hrun : ∀ c, stC6w.current = some c → Unqueued stC6w c := by
    intro c hc
    have h2 : some 0 = some c := hc
    cases h2
    exact hcur
  have h := queue_membership_exclusive stC6w 0 0 hd hcur hrun
  exact ⟨h.1, h.2.2.1⟩

end PA2
